import Mathlib

/-!
Shallow embedding of the `graphql_object` attribute macro from
`async_graphql_extras` (src/src/lib.rs).

The macro takes the macro argument tokens (parsed as a list of nested meta
items, as `syn::AttributeArgs` / darling would see them) and an annotated
struct (parsed as `syn::ItemStruct`), and emits:
  * an "output" copy of the struct (with a `SimpleObject` derive unless
    suppressed),
  * an "input" copy (renamed, with an `InputObject` derive, field types
    possibly overridden by per-field `input_type` options), and
  * an `Into` implementation from the input struct to the output struct.

Token streams are modelled structurally: the expansion is a list of items
(struct declarations, an `impl Into` block, or `compile_error!` tokens
written by darling for option errors), and a `panic!` aborting the whole
expansion is modelled as a separate constructor.  String-to-path parsing
performed by syn/darling is modelled opaquely (the raw text is kept as a
single path segment); proc-macro spans are modelled by recording, in each
error, the identifier of the offending source element.
-/

namespace AsyncGraphqlExtras

abbrev Ident := String

/-- Model of `syn::Path`: a (possibly qualified) path, as a list of segments. -/
structure Path where
  segments : List Ident
deriving DecidableEq, Repr

/-- Model of `syn::Path::get_ident`: the single identifier of a one-segment path. -/
def Path.getIdent : Path → Option Ident
  | ⟨[i]⟩ => some i
  | _ => none

/-- Model of `syn::NestedMeta` in the shapes the macro's options use:
`name = "string"`, a bare word, or `name = bool`. -/
inductive NestedMeta where
  | nameValueStr (nm : Ident) (value : String)
  | word (nm : Ident)
  | nameValueBool (nm : Ident) (value : Bool)
deriving DecidableEq, Repr

/-- The option name an argument token addresses. -/
def NestedMeta.name : NestedMeta → Ident
  | .nameValueStr n _ => n
  | .word n => n
  | .nameValueBool n _ => n

/-- The token tree following an attribute's path: `= "…"` (doc comments),
a parenthesised meta list, or nothing. -/
inductive AttrTokens where
  | eqStr (s : String)
  | metaList (ms : List NestedMeta)
  | empty
deriving DecidableEq, Repr

/-- Model of `syn::Attribute`. -/
structure Attribute where
  path : Path
  tokens : AttrTokens
deriving DecidableEq, Repr

/-- Model of `syn::Type` in the shapes the macro handles: a type path (which is what
the macro writes when it retargets a field), or any other type kept as raw
text. -/
inductive Ty where
  | path (p : Path)
  | other (raw : String)
deriving DecidableEq, Repr

/-- Model of `syn::Field`: `ident` is `none` exactly for tuple-struct fields. -/
structure Field where
  ident : Option Ident
  attrs : List Attribute
  ty : Ty
deriving DecidableEq, Repr

/-- Model of `syn::ItemStruct` (generics and the struct/semi tokens carry no
information the macro inspects and are omitted). -/
structure ItemStruct where
  attrs : List Attribute
  vis : String
  ident : Ident
  fields : List Field
deriving DecidableEq, Repr

/-- The `GraphqlObjectMetaArgs` record: options to the `graphql_object` macro
(`#[darling(default)]`, so every field defaults). -/
structure GraphqlObjectMetaArgs where
  input_type_doc : Option String := none
  input_type_name : Option String := none
  skip_derive_simple_object : Bool := false
deriving DecidableEq, Repr

/-- The `GraphqlObjectFieldArgs` record: per-field options of the macro. -/
structure GraphqlObjectFieldArgs where
  input_type : Option Path := none
deriving DecidableEq, Repr

/-- A darling option error; `loc` records the identifier of the offending
source element (darling anchors its `compile_error!` at that span). -/
inductive DarlingError where
  | unknownField (loc : Ident)
  | duplicateField (loc : Ident)
  | unexpectedFormat (loc : Ident)
deriving DecidableEq, Repr

/-- The source identifier an error is anchored at. -/
def DarlingError.loc : DarlingError → Ident
  | .unknownField l => l
  | .duplicateField l => l
  | .unexpectedFormat l => l

/-- Modelled opaquely: darling/syn parsing of a path from the string value
of an `input_type` option (`syn::parse_str::<Path>`); the raw text is kept
as a single segment, and only the empty string fails to parse. -/
def parsePath (s : String) : Option Path :=
  if s = "" then none else some ⟨[s]⟩

/-- Option names `GraphqlObjectMetaArgs` accepts. -/
def metaArgNames : List Ident :=
  ["input_type_doc", "input_type_name", "skip_derive_simple_object"]

/-- Accumulator for darling's `from_list` pass over the macro arguments. -/
structure MetaArgsState where
  opts : GraphqlObjectMetaArgs
  seen : List Ident
  errs : List DarlingError
deriving Repr

/-- One step of darling's `from_list`: record the option value, or append
an unknown-field / duplicate-field / bad-format error for this token. -/
def applyMetaArg (st : MetaArgsState) (m : NestedMeta) : MetaArgsState :=
  let n := m.name
  if n ∉ metaArgNames then
    { st with errs := st.errs ++ [.unknownField n] }
  else if n ∈ st.seen then
    { st with errs := st.errs ++ [.duplicateField n] }
  else
    let st := { st with seen := st.seen ++ [n] }
    match m with
    | .nameValueStr _ v =>
      if n = "input_type_doc" then
        { st with opts := { st.opts with input_type_doc := some v } }
      else if n = "input_type_name" then
        { st with opts := { st.opts with input_type_name := some v } }
      else
        { st with errs := st.errs ++ [.unexpectedFormat n] }
    | .word _ =>
      if n = "skip_derive_simple_object" then
        { st with opts := { st.opts with skip_derive_simple_object := true } }
      else
        { st with errs := st.errs ++ [.unexpectedFormat n] }
    | .nameValueBool _ b =>
      if n = "skip_derive_simple_object" then
        { st with opts := { st.opts with skip_derive_simple_object := b } }
      else
        { st with errs := st.errs ++ [.unexpectedFormat n] }

/-- Model of `GraphqlObjectMetaArgs::from_list` (darling): parse the macro argument
tokens, accumulating every option error. -/
def GraphqlObjectMetaArgs.from_list (metas : List NestedMeta) :
    Except (List DarlingError) GraphqlObjectMetaArgs :=
  let st := metas.foldl applyMetaArg ⟨{}, [], []⟩
  if st.errs = [] then .ok st.opts else .error st.errs

/-- Option names `GraphqlObjectFieldArgs` accepts. -/
def fieldArgNames : List Ident := ["input_type"]

/-- Accumulator for darling's `from_field` pass over one field. -/
structure FieldArgsState where
  args : GraphqlObjectFieldArgs
  seen : List Ident
  errs : List DarlingError
deriving Repr

/-- One step of darling's field-option parsing. -/
def applyFieldMeta (st : FieldArgsState) (m : NestedMeta) : FieldArgsState :=
  let n := m.name
  if n ∉ fieldArgNames then
    { st with errs := st.errs ++ [.unknownField n] }
  else if n ∈ st.seen then
    { st with errs := st.errs ++ [.duplicateField n] }
  else
    let st := { st with seen := st.seen ++ [n] }
    match m with
    | .nameValueStr _ v =>
      match parsePath v with
      | some p => { st with args := { st.args with input_type := some p } }
      | none => { st with errs := st.errs ++ [.unexpectedFormat n] }
    | _ => { st with errs := st.errs ++ [.unexpectedFormat n] }

/-- Darling's handling of one attribute while parsing field options: only
`#[graphql_object(...)]` attributes are inspected. -/
def applyFieldAttr (st : FieldArgsState) (attr : Attribute) : FieldArgsState :=
  if attr.path.getIdent = some "graphql_object" then
    match attr.tokens with
    | .metaList ms => ms.foldl applyFieldMeta st
    | .empty => st
    | .eqStr _ => { st with errs := st.errs ++ [.unexpectedFormat "graphql_object"] }
  else st

/-- Model of `GraphqlObjectFieldArgs::from_field` (darling): parse the
`graphql_object` options attached to one field. -/
def GraphqlObjectFieldArgs.from_field (field : Field) :
    Except (List DarlingError) GraphqlObjectFieldArgs :=
  let st := field.attrs.foldl applyFieldAttr ⟨{}, [], []⟩
  if st.errs = [] then .ok st.args else .error st.errs

/-- One `#name: self.#name.into()` field assignment inside the generated
`Into` implementation; `lhs` is the constructed field, `rhs` the field of
`self` it is built from. -/
structure Assign where
  lhs : Ident
  rhs : Ident
deriving DecidableEq, Repr

/-- One item of the emitted token stream: a struct declaration (with the
derives the macro prepends), the generated `impl Into` block, or the
`compile_error!` tokens darling writes for option errors. -/
inductive Item where
  | structItem (extraDerives : List String) (s : ItemStruct)
  | intoImpl (targetTy selfTy : Ident) (assigns : List Assign)
  | compileErrors (errs : List DarlingError)
deriving DecidableEq, Repr

/-- Result of `generate_input_struct`: generated items, darling error
tokens returned early, or a `panic!` aborting expansion. -/
inductive GenResult where
  | items (l : List Item)
  | errors (errs : List DarlingError)
  | panicked (msg : String)
deriving DecidableEq, Repr

/-- Result of the whole macro: a token stream, or a panic. -/
inductive Expansion where
  | tokens (items : List Item)
  | panicked (msg : String)
deriving DecidableEq, Repr

/-- Model of `utils::strip_annotations_with_path`: drop every attribute whose path
is exactly the given single identifier. -/
def strip_annotations_with_path (p : Ident) (attrs : List Attribute) :
    List Attribute :=
  attrs.filter (fun attr => attr.path.getIdent ≠ some p)

/-- Model of `generate_output_struct`: a copy of the reference struct with
`graphql_object` annotations stripped from its fields, prefixed with a
`SimpleObject` derive unless `skip_derive_simple_object` is set. -/
def generate_output_struct (reference_struct : ItemStruct)
    (options : GraphqlObjectMetaArgs) : Item :=
  let output_obj_struct :=
    { reference_struct with
      fields := reference_struct.fields.map (fun f =>
        { f with attrs := strip_annotations_with_path "graphql_object" f.attrs }) }
  let extra_derive : List String :=
    if !options.skip_derive_simple_object then ["::async_graphql::SimpleObject"]
    else []
  Item.structItem extra_derive output_obj_struct

/-- The doc-string update of `generate_input_struct`: overwrite the tokens
of the first `doc` attribute, if any, with `= "input_doc"`. -/
def replaceFirstDoc (input_doc : String) : List Attribute → List Attribute
  | [] => []
  | a :: rest =>
    if a.path.getIdent = some "doc" then
      { a with tokens := AttrTokens.eqStr input_doc } :: rest
    else
      a :: replaceFirstDoc input_doc rest

/-- The struct-level attributes of the generated input struct: the
reference struct's attributes, with the first doc attribute overwritten
when `input_type_doc` is given. -/
def inputStructAttrs (options : GraphqlObjectMetaArgs) (s : ItemStruct) :
    List Attribute :=
  match options.input_type_doc with
  | some input_doc => replaceFirstDoc input_doc s.attrs
  | none => s.attrs

/-- The field loop of `generate_input_struct`: parse each field's options
(returning darling's error tokens at the first failing field, as the
`handle_darling_errors!` early return does), retarget the type when an
`input_type` option is present, and drop `graphql_object` annotations. -/
def transformInputFields : List Field → Except (List DarlingError) (List Field)
  | [] => .ok []
  | f :: rest =>
    match GraphqlObjectFieldArgs.from_field f with
    | .error errs => .error errs
    | .ok args =>
      let f :=
        match args.input_type with
        | some p => { f with ty := Ty.path p }
        | none => f
      let f :=
        { f with
          attrs := f.attrs.filter (fun attr =>
            attr.path.getIdent ≠ some "graphql_object") }
      match transformInputFields rest with
      | .error errs => .error errs
      | .ok fs => .ok (f :: fs)

/-- The assignment list of the generated `Into` implementation, built from
the reference struct's fields; an unnamed field hits the
`expect("Can't work with tuple structs")` panic. -/
def fieldAssignments : List Field → Except String (List Assign)
  | [] => .ok []
  | f :: rest =>
    match f.ident with
    | none => .error "Can't work with tuple structs"
    | some nm =>
      match fieldAssignments rest with
      | .error msg => .error msg
      | .ok assigns => .ok (⟨nm, nm⟩ :: assigns)

/-- Model of `generate_input_struct`: the renamed `InputObject` copy of the struct
followed by the `impl Into` block, or darling error tokens, or a panic. -/
def generate_input_struct (reference_struct : ItemStruct)
    (options : GraphqlObjectMetaArgs) : GenResult :=
  let input_ident :=
    options.input_type_name.getD (reference_struct.ident ++ "Input")
  let attrs := inputStructAttrs options reference_struct
  match transformInputFields reference_struct.fields with
  | .error errs => .errors errs
  | .ok new_fields =>
    let input_obj_struct : ItemStruct :=
      { reference_struct with
        ident := input_ident, attrs := attrs, fields := new_fields }
    match fieldAssignments reference_struct.fields with
    | .error msg => .panicked msg
    | .ok assigns =>
      .items
        [Item.structItem ["::async_graphql::InputObject"] input_obj_struct,
         Item.intoImpl reference_struct.ident input_obj_struct.ident assigns]

/-- Model of `graphql_object`: parse the macro arguments (returning darling's error
tokens on failure), then emit the output struct followed by the result of
`generate_input_struct`. -/
def graphql_object (args : List NestedMeta) (input : ItemStruct) : Expansion :=
  match GraphqlObjectMetaArgs.from_list args with
  | .error errs => .tokens [Item.compileErrors errs]
  | .ok options =>
    let o := generate_output_struct input options
    match generate_input_struct input options with
    | .errors errs => .tokens [o, Item.compileErrors errs]
    | .panicked msg => .panicked msg
    | .items l => .tokens (o :: l)

/-- Denotation of the generated `Into` implementation's constructor body:
given an interpretation of each field's `.into()` conversion and the field
values of `self`, each assignment yields one field of the constructed
record. -/
def evalIntoImpl {V : Type} (intoFn : Ident → V → V) (self : Ident → V)
    (assigns : List Assign) : List (Ident × V) :=
  assigns.map (fun a => (a.lhs, intoFn a.rhs (self a.rhs)))

/-- The option names one attribute contributes to darling's field-option
parsing: the metas inside a `#[graphql_object(...)]` attribute, or the
attribute identifier itself for a malformed `#[graphql_object = "…"]`. -/
def attrOptionNames (attr : Attribute) : List Ident :=
  if attr.path.getIdent = some "graphql_object" then
    match attr.tokens with
    | .metaList ms => ms.map NestedMeta.name
    | .eqStr _ => ["graphql_object"]
    | .empty => []
  else []

/-- The option names darling inspects on one field. -/
def fieldOptionNames (f : Field) : List Ident :=
  (f.attrs.map attrOptionNames).flatten

/-- Every identifier of the original source an option error can be
anchored at: the macro argument names and the per-field option names. -/
def sourceOptionNames (args : List NestedMeta) (s : ItemStruct) : List Ident :=
  args.map NestedMeta.name ++ (s.fields.map fieldOptionNames).flatten

/-- Concrete annotated struct, following the crate's doc example: a doc
comment, two named fields, one carrying an `input_type` override. -/
def exUserStruct : ItemStruct :=
  { attrs := [⟨⟨["doc"]⟩, .eqStr " Information about the user"⟩],
    vis := "pub",
    ident := "UserData",
    fields :=
      [⟨some "username", [], .other "String"⟩,
       ⟨some "favorites",
        [⟨⟨["graphql_object"]⟩,
          .metaList [.nameValueStr "input_type" "InputFavorites"]⟩],
        .other "Favorites"⟩] }

/-- Concrete annotated struct that carries no doc attribute. -/
def cexNoDocStruct : ItemStruct :=
  { attrs := [], vis := "pub", ident := "Foo",
    fields := [⟨some "a", [], .other "String"⟩] }

/-- Concrete tuple struct (one unnamed field, no field options). -/
def cexTupleStruct : ItemStruct :=
  { attrs := [], vis := "pub", ident := "Pair",
    fields := [⟨none, [], .other "String"⟩] }

/-- Concrete tuple struct whose unnamed field carries a malformed
`graphql_object` option. -/
def cexTupleBadOptStruct : ItemStruct :=
  { attrs := [], vis := "pub", ident := "Pair",
    fields :=
      [⟨none,
        [⟨⟨["graphql_object"]⟩, .metaList [.nameValueStr "bogus" "x"]⟩],
        .other "String"⟩] }

/-- Concrete struct with a field attribute the output copy must strip. -/
def cexAnnotatedFieldStruct : ItemStruct :=
  { attrs := [], vis := "pub", ident := "Holder",
    fields :=
      [⟨some "inner",
        [⟨⟨["graphql_object"]⟩,
          .metaList [.nameValueStr "input_type" "InnerInput"]⟩],
        .other "Inner"⟩] }

/-- Whether the first generated struct of a result carries a doc attribute
with exactly the given string. -/
def inputStructDocHasStr (r : GenResult) (docStr : String) : Bool :=
  match r with
  | .items (Item.structItem _ inS :: _) =>
    inS.attrs.any (fun a =>
      a.path.getIdent == some "doc" && a.tokens == AttrTokens.eqStr docStr)
  | _ => false

instance {ε α : Type} [DecidableEq ε] [DecidableEq α] :
    DecidableEq (Except ε α) := fun a b =>
  match a, b with
  | .ok x, .ok y =>
    if h : x = y then .isTrue (h ▸ rfl)
    else .isFalse (fun hc => h (Except.ok.inj hc))
  | .error x, .error y =>
    if h : x = y then .isTrue (h ▸ rfl)
    else .isFalse (fun hc => h (Except.error.inj hc))
  | .ok _, .error _ => .isFalse (fun hc => Except.noConfusion hc)
  | .error _, .ok _ => .isFalse (fun hc => Except.noConfusion hc)

/-- The assignment list generated from an all-named field list pairs each
field name with itself, in order. -/
theorem fieldAssignments_ok_spec :
    ∀ (fields : List Field) (assigns : List Assign),
      fieldAssignments fields = .ok assigns →
      fields.map Field.ident = assigns.map (fun a => some a.lhs) ∧
        ∀ a ∈ assigns, a.rhs = a.lhs
  | [], assigns, h => by
    simp [fieldAssignments] at h
    subst h
    simp
  | f :: rest, assigns, h => by
    cases hi : f.ident with
    | none => simp [fieldAssignments, hi] at h
    | some nm =>
      cases hr : fieldAssignments rest with
      | error msg => simp [fieldAssignments, hi, hr] at h
      | ok asg =>
        simp [fieldAssignments, hi, hr] at h
        subst h
        obtain ⟨h1, h2⟩ := fieldAssignments_ok_spec rest asg hr
        refine ⟨by simp [hi, h1], ?_⟩
        intro a ha
        rcases List.mem_cons.mp ha with rfl | ha
        · rfl
        · exact h2 a ha

/-- An unnamed field makes the assignment builder hit the tuple-struct
panic message. -/
theorem fieldAssignments_error_of_unnamed :
    ∀ (fields : List Field), (∃ f ∈ fields, f.ident = none) →
      fieldAssignments fields = .error "Can't work with tuple structs"
  | [], h => by simp at h
  | f :: rest, h => by
    cases hi : f.ident with
    | none => simp [fieldAssignments, hi]
    | some nm =>
      have hrest : ∃ g ∈ rest, g.ident = none := by
        rcases h with ⟨g, hg, hgn⟩
        rcases List.mem_cons.mp hg with rfl | hg
        · rw [hi] at hgn
          cases hgn
        · exact ⟨g, hg, hgn⟩
      simp [fieldAssignments, hi,
        fieldAssignments_error_of_unnamed rest hrest]

/-- A successfully built assignment list means every field was named. -/
theorem fieldAssignments_ok_all_named (fields : List Field)
    (assigns : List Assign) (h : fieldAssignments fields = .ok assigns) :
    ∀ f ∈ fields, f.ident ≠ none := by
  intro f hf hnone
  have herr := fieldAssignments_error_of_unnamed fields ⟨f, hf, hnone⟩
  rw [h] at herr
  cases herr

/-- Looking up a field in the record built by the generated conversion
yields the same-named field of `self`, converted. -/
theorem lookup_evalIntoImpl {V : Type} (intoFn : Ident → V → V)
    (self : Ident → V) :
    ∀ (assigns : List Assign), (∀ a ∈ assigns, a.rhs = a.lhs) →
      ∀ n, n ∈ assigns.map Assign.lhs →
        (evalIntoImpl intoFn self assigns).lookup n =
          some (intoFn n (self n))
  | [], _, n, hn => by simp at hn
  | a :: rest, h, n, hn => by
    have ha : a.rhs = a.lhs := h a (List.mem_cons_self a rest)
    by_cases hna : n = a.lhs
    · subst hna
      simp [evalIntoImpl, List.lookup, ha]
    · have hmem : n ∈ rest.map Assign.lhs := by
        rcases List.mem_map.mp hn with ⟨b, hb, hbn⟩
        rcases List.mem_cons.mp hb with rfl | hb
        · exact absurd hbn.symm hna
        · exact List.mem_map.mpr ⟨b, hb, hbn⟩
      have ih := lookup_evalIntoImpl intoFn self rest
        (fun b hb => h b (List.mem_cons_of_mem a hb)) n hmem
      have hbeq : (n == a.lhs) = false := by simp [hna]
      simp only [evalIntoImpl, List.map_cons, List.lookup, hbeq] at ih ⊢
      exact ih

/-- Pointwise description of the input-field loop on success. -/
theorem transformInputFields_ok_spec :
    ∀ (fields new_fields : List Field),
      transformInputFields fields = .ok new_fields →
      new_fields.length = fields.length ∧
        ∀ (i : Nat) (fi fo : Field),
          fields[i]? = some fi → new_fields[i]? = some fo →
          ∃ fargs, GraphqlObjectFieldArgs.from_field fi = .ok fargs ∧
            fo.ident = fi.ident ∧
            (∀ p, fargs.input_type = some p → fo.ty = Ty.path p) ∧
            (fargs.input_type = none → fo.ty = fi.ty) ∧
            fo.attrs = fi.attrs.filter
              (fun attr => attr.path.getIdent ≠ some "graphql_object")
  | [], new_fields, h => by
    simp [transformInputFields] at h
    subst h
    simp
  | f :: rest, new_fields, h => by
    cases hf : GraphqlObjectFieldArgs.from_field f with
    | error errs => simp [transformInputFields, hf] at h
    | ok fargs =>
      cases ht : transformInputFields rest with
      | error errs => simp [transformInputFields, hf, ht] at h
      | ok nfr =>
        simp [transformInputFields, hf, ht] at h
        subst h
        obtain ⟨hlen, hrest⟩ := transformInputFields_ok_spec rest nfr ht
        refine ⟨by simp [hlen], ?_⟩
        intro i fi fo hfi hfo
        cases i with
        | zero =>
          simp at hfi hfo
          subst hfi
          cases hat : fargs.input_type with
          | none => exact ⟨fargs, hf, by simp [← hfo, hat]⟩
          | some p => exact ⟨fargs, hf, by simp [← hfo, hat]⟩
        | succ j =>
          exact hrest j fi fo (by simpa using hfi) (by simpa using hfo)

/-- Shape of a successful `generate_input_struct`. -/
theorem generate_input_struct_items_spec (s : ItemStruct)
    (options : GraphqlObjectMetaArgs) (l : List Item)
    (hgen : generate_input_struct s options = .items l) :
    ∃ new_fields assigns,
      transformInputFields s.fields = .ok new_fields ∧
        fieldAssignments s.fields = .ok assigns ∧
        l = [Item.structItem ["::async_graphql::InputObject"]
               { s with
                 ident := options.input_type_name.getD (s.ident ++ "Input"),
                 attrs := inputStructAttrs options s,
                 fields := new_fields },
             Item.intoImpl s.ident
               (options.input_type_name.getD (s.ident ++ "Input")) assigns] := by
  unfold generate_input_struct at hgen
  cases htf : transformInputFields s.fields with
  | error errs => simp [htf] at hgen
  | ok nf =>
    cases hfa : fieldAssignments s.fields with
    | error msg => simp [htf, hfa] at hgen
    | ok asg =>
      simp [htf, hfa] at hgen
      exact ⟨nf, asg, rfl, rfl, hgen.symm⟩

/-- Replacing the first doc attribute is the identity when no attribute is
a doc attribute. -/
theorem replaceFirstDoc_of_no_doc (docStr : String) :
    ∀ (attrs : List Attribute),
      (∀ a ∈ attrs, a.path.getIdent ≠ some "doc") →
      replaceFirstDoc docStr attrs = attrs
  | [], _ => rfl
  | a :: rest, h => by
    have ha := h a (List.mem_cons_self a rest)
    simp [replaceFirstDoc, ha,
      replaceFirstDoc_of_no_doc docStr rest
        (fun b hb => h b (List.mem_cons_of_mem a hb))]

/-- Replacing the first doc attribute rewrites exactly the first doc
attribute of the list and keeps everything else. -/
theorem replaceFirstDoc_append (docStr : String) (d : Attribute)
    (post : List Attribute) (hd : d.path.getIdent = some "doc") :
    ∀ (pre : List Attribute),
      (∀ a ∈ pre, a.path.getIdent ≠ some "doc") →
      replaceFirstDoc docStr (pre ++ d :: post) =
        pre ++ { d with tokens := AttrTokens.eqStr docStr } :: post
  | [], _ => by simp [replaceFirstDoc, hd]
  | a :: pre, h => by
    have ha := h a (List.mem_cons_self a pre)
    simp [replaceFirstDoc, ha,
      replaceFirstDoc_append docStr d post hd pre
        (fun b hb => h b (List.mem_cons_of_mem a hb))]

/-- C1: for a named-field struct whose macro arguments and field options
parse successfully, the macro expansion consists of exactly three items,
in this order: the output struct, the input struct, and the conversion
implementation from the input struct to the output struct. -/
theorem graphql_object_expands_to_three_items (args : List NestedMeta)
    (s : ItemStruct) (options : GraphqlObjectMetaArgs)
    (new_fields : List Field) (assigns : List Assign)
    (hopts : GraphqlObjectMetaArgs.from_list args = .ok options)
    (hfields : transformInputFields s.fields = .ok new_fields)
    (hassigns : fieldAssignments s.fields = .ok assigns) :
    graphql_object args s =
      Expansion.tokens
        [generate_output_struct s options,
         Item.structItem ["::async_graphql::InputObject"]
           { s with
             ident := options.input_type_name.getD (s.ident ++ "Input"),
             attrs := inputStructAttrs options s,
             fields := new_fields },
         Item.intoImpl s.ident
           (options.input_type_name.getD (s.ident ++ "Input")) assigns] := by
  simp [graphql_object, hopts, generate_input_struct, hfields, hassigns]

/-- Witness for `graphql_object_expands_to_three_items` at the crate's doc
example struct with empty macro arguments. -/
theorem graphql_object_expands_to_three_items_witness :
    graphql_object [] exUserStruct =
      Expansion.tokens
        [generate_output_struct exUserStruct {},
         Item.structItem ["::async_graphql::InputObject"]
           { exUserStruct with
             ident := ({} : GraphqlObjectMetaArgs).input_type_name.getD
               (exUserStruct.ident ++ "Input"),
             attrs := inputStructAttrs {} exUserStruct,
             fields :=
               [⟨some "username", [], .other "String"⟩,
                ⟨some "favorites", [], .path ⟨["InputFavorites"]⟩⟩] },
         Item.intoImpl exUserStruct.ident
           (({} : GraphqlObjectMetaArgs).input_type_name.getD
             (exUserStruct.ident ++ "Input"))
           [⟨"username", "username"⟩, ⟨"favorites", "favorites"⟩]] :=
  graphql_object_expands_to_three_items [] exUserStruct {}
    [⟨some "username", [], .other "String"⟩,
     ⟨some "favorites", [], .path ⟨["InputFavorites"]⟩⟩]
    [⟨"username", "username"⟩, ⟨"favorites", "favorites"⟩]
    (by decide) (by decide) (by decide)

/-- C2: the generated conversion maps the input struct's fields onto the
output struct's fields by name: the conversion targets the reference
struct, its assignment names are exactly the reference struct's field
names in order, each assignment reads the same-named field of `self`, and
the constructed record's field `n` is the input's field `n` converted via
`Into`. -/
theorem into_impl_maps_fields_by_name (s : ItemStruct)
    (options : GraphqlObjectMetaArgs) (l : List Item)
    (targetTy selfTy : Ident) (assigns : List Assign)
    (hgen : generate_input_struct s options = .items l)
    (hmem : Item.intoImpl targetTy selfTy assigns ∈ l) :
    targetTy = s.ident ∧
      s.fields.map Field.ident = assigns.map (fun a => some a.lhs) ∧
      (∀ a ∈ assigns, a.rhs = a.lhs) ∧
      ∀ (V : Type) (intoFn : Ident → V → V) (self : Ident → V) (n : Ident),
        n ∈ assigns.map Assign.lhs →
        (evalIntoImpl intoFn self assigns).lookup n =
          some (intoFn n (self n)) := by
  obtain ⟨nf, asg, htf, hfa, hl⟩ := generate_input_struct_items_spec s options l hgen
  subst hl
  simp at hmem
  obtain ⟨ht, hsel, hasg⟩ := hmem
  subst ht
  subst hasg
  obtain ⟨h1, h2⟩ := fieldAssignments_ok_spec s.fields assigns hfa
  exact ⟨rfl, h1, h2, fun V intoFn self n hn =>
    lookup_evalIntoImpl intoFn self assigns h2 n hn⟩

/-- Witness for `into_impl_maps_fields_by_name` at the doc example. -/
theorem into_impl_maps_fields_by_name_witness :
    ("UserData" : Ident) = exUserStruct.ident ∧
      exUserStruct.fields.map Field.ident =
        ([⟨"username", "username"⟩, ⟨"favorites", "favorites"⟩] :
            List Assign).map (fun a => some a.lhs) ∧
      (∀ a ∈ ([⟨"username", "username"⟩, ⟨"favorites", "favorites"⟩] :
          List Assign), a.rhs = a.lhs) ∧
      ∀ (V : Type) (intoFn : Ident → V → V) (self : Ident → V) (n : Ident),
        n ∈ ([⟨"username", "username"⟩, ⟨"favorites", "favorites"⟩] :
            List Assign).map Assign.lhs →
        (evalIntoImpl intoFn self
            [⟨"username", "username"⟩, ⟨"favorites", "favorites"⟩]).lookup n =
          some (intoFn n (self n)) :=
  into_impl_maps_fields_by_name exUserStruct {}
    [Item.structItem ["::async_graphql::InputObject"]
      { attrs := [⟨⟨["doc"]⟩, .eqStr " Information about the user"⟩],
        vis := "pub", ident := "UserDataInput",
        fields :=
          [⟨some "username", [], .other "String"⟩,
           ⟨some "favorites", [], .path ⟨["InputFavorites"]⟩⟩] },
     Item.intoImpl "UserData" "UserDataInput"
       [⟨"username", "username"⟩, ⟨"favorites", "favorites"⟩]]
    "UserData" "UserDataInput"
    [⟨"username", "username"⟩, ⟨"favorites", "favorites"⟩]
    (by decide) (by decide)

/-- C3: in the generated input struct, a field carrying an
`input_type = T` option gets type `T`, and a field without that option
keeps the same type as in the reference (and output) struct. -/
theorem input_fields_follow_input_type_option (s : ItemStruct)
    (options : GraphqlObjectMetaArgs) (derives : List String)
    (inS : ItemStruct) (rest : List Item)
    (hgen : generate_input_struct s options =
      .items (Item.structItem derives inS :: rest)) :
    inS.fields.length = s.fields.length ∧
      ∀ (i : Nat) (fi fo : Field),
        s.fields[i]? = some fi → inS.fields[i]? = some fo →
        ∃ fargs, GraphqlObjectFieldArgs.from_field fi = .ok fargs ∧
          fo.ident = fi.ident ∧
          (∀ p, fargs.input_type = some p → fo.ty = Ty.path p) ∧
          (fargs.input_type = none → fo.ty = fi.ty) := by
  obtain ⟨nf, asg, htf, hfa, hl⟩ := generate_input_struct_items_spec s options _ hgen
  have hfields : inS.fields = nf := by
    simp at hl
    rw [hl.1.2]
  rw [hfields]
  obtain ⟨hlen, hpt⟩ := transformInputFields_ok_spec s.fields nf htf
  refine ⟨hlen, fun i fi fo hfi hfo => ?_⟩
  obtain ⟨fargs, h1, h2, h3, h4, _⟩ := hpt i fi fo hfi hfo
  exact ⟨fargs, h1, h2, h3, h4⟩

/-- Witness for `input_fields_follow_input_type_option` at the doc
example: one field overridden, one field kept. -/
theorem input_fields_follow_input_type_option_witness :
    ([⟨some "username", [], .other "String"⟩,
      ⟨some "favorites", [], Ty.path ⟨["InputFavorites"]⟩⟩] :
        List Field).length = exUserStruct.fields.length ∧
      ∀ (i : Nat) (fi fo : Field),
        exUserStruct.fields[i]? = some fi →
        ([⟨some "username", [], .other "String"⟩,
          ⟨some "favorites", [], Ty.path ⟨["InputFavorites"]⟩⟩] :
            List Field)[i]? = some fo →
        ∃ fargs, GraphqlObjectFieldArgs.from_field fi = .ok fargs ∧
          fo.ident = fi.ident ∧
          (∀ p, fargs.input_type = some p → fo.ty = Ty.path p) ∧
          (fargs.input_type = none → fo.ty = fi.ty) :=
  input_fields_follow_input_type_option exUserStruct {}
    ["::async_graphql::InputObject"]
    { attrs := [⟨⟨["doc"]⟩, .eqStr " Information about the user"⟩],
      vis := "pub", ident := "UserDataInput",
      fields :=
        [⟨some "username", [], .other "String"⟩,
         ⟨some "favorites", [], .path ⟨["InputFavorites"]⟩⟩] }
    [Item.intoImpl "UserData" "UserDataInput"
      [⟨"username", "username"⟩, ⟨"favorites", "favorites"⟩]]
    (by decide)

/-- C4: the generated input struct is named `<reference>Input` when
`input_type_name` is absent, and is exactly the supplied string (not a
suffix) when it is present. -/
theorem input_struct_name_default_or_override (s : ItemStruct)
    (options : GraphqlObjectMetaArgs) (derives : List String)
    (inS : ItemStruct) (rest : List Item)
    (hgen : generate_input_struct s options =
      .items (Item.structItem derives inS :: rest)) :
    (options.input_type_name = none → inS.ident = s.ident ++ "Input") ∧
      ∀ nm, options.input_type_name = some nm → inS.ident = nm := by
  obtain ⟨nf, asg, htf, hfa, hl⟩ := generate_input_struct_items_spec s options _ hgen
  have hident : inS.ident = options.input_type_name.getD (s.ident ++ "Input") := by
    simp at hl
    rw [hl.1.2]
  constructor
  · intro hn
    rw [hident, hn]
    rfl
  · intro nm hnm
    rw [hident, hnm]
    rfl

/-- Witness for `input_struct_name_default_or_override`: the default name
at the doc example, and the overridden name on the same struct. -/
theorem input_struct_name_default_or_override_witness :
    ((({} : GraphqlObjectMetaArgs).input_type_name = none →
        ("UserDataInput" : Ident) = exUserStruct.ident ++ "Input") ∧
      ∀ nm, ({} : GraphqlObjectMetaArgs).input_type_name = some nm →
        ("UserDataInput" : Ident) = nm) ∧
      ((({ input_type_name := some "CustomName" } :
            GraphqlObjectMetaArgs).input_type_name = none →
          ("CustomName" : Ident) = exUserStruct.ident ++ "Input") ∧
        ∀ nm, ({ input_type_name := some "CustomName" } :
            GraphqlObjectMetaArgs).input_type_name = some nm →
          ("CustomName" : Ident) = nm) :=
  ⟨input_struct_name_default_or_override exUserStruct {}
    ["::async_graphql::InputObject"]
    { attrs := [⟨⟨["doc"]⟩, .eqStr " Information about the user"⟩],
      vis := "pub", ident := "UserDataInput",
      fields :=
        [⟨some "username", [], .other "String"⟩,
         ⟨some "favorites", [], .path ⟨["InputFavorites"]⟩⟩] }
    [Item.intoImpl "UserData" "UserDataInput"
      [⟨"username", "username"⟩, ⟨"favorites", "favorites"⟩]]
    (by decide),
   input_struct_name_default_or_override exUserStruct
    { input_type_name := some "CustomName" }
    ["::async_graphql::InputObject"]
    { attrs := [⟨⟨["doc"]⟩, .eqStr " Information about the user"⟩],
      vis := "pub", ident := "CustomName",
      fields :=
        [⟨some "username", [], .other "String"⟩,
         ⟨some "favorites", [], .path ⟨["InputFavorites"]⟩⟩] }
    [Item.intoImpl "UserData" "CustomName"
      [⟨"username", "username"⟩, ⟨"favorites", "favorites"⟩]]
    (by decide)⟩

/-- C5 counterexample: the emitted output declaration is not otherwise
unchanged — the `graphql_object` annotation on a field is stripped, so the
output item differs from the reference struct with just a derive attached. -/
theorem output_struct_unchanged_cex :
    generate_output_struct cexAnnotatedFieldStruct {} ≠
      Item.structItem ["::async_graphql::SimpleObject"]
        cexAnnotatedFieldStruct := by
  decide

/-- C5 (amended): the emitted output declaration is a copy of the
reference struct with the `SimpleObject` derive attached — same name,
visibility, struct-level attributes, field names and field types — and
field attributes are preserved except that `graphql_object` annotations
are removed. -/
theorem output_struct_copy_modulo_stripped_field_attrs (s : ItemStruct)
    (options : GraphqlObjectMetaArgs)
    (h : options.skip_derive_simple_object = false) :
    ∃ outS,
      generate_output_struct s options =
          Item.structItem ["::async_graphql::SimpleObject"] outS ∧
        outS.ident = s.ident ∧ outS.vis = s.vis ∧ outS.attrs = s.attrs ∧
        outS.fields.map Field.ident = s.fields.map Field.ident ∧
        outS.fields.map Field.ty = s.fields.map Field.ty ∧
        outS.fields.map Field.attrs =
          s.fields.map (fun f => f.attrs.filter
            (fun attr => attr.path.getIdent ≠ some "graphql_object")) := by
  refine ⟨{ s with fields := s.fields.map (fun f =>
      { f with attrs :=
          strip_annotations_with_path "graphql_object" f.attrs }) },
    ?_, rfl, rfl, rfl, ?_, ?_, ?_⟩ <;>
    simp [generate_output_struct, h, strip_annotations_with_path,
      List.map_map, Function.comp]

/-- Witness for `output_struct_copy_modulo_stripped_field_attrs` at a
struct with an annotated field and default options. -/
theorem output_struct_copy_modulo_stripped_field_attrs_witness :
    ∃ outS,
      generate_output_struct cexAnnotatedFieldStruct {} =
          Item.structItem ["::async_graphql::SimpleObject"] outS ∧
        outS.ident = cexAnnotatedFieldStruct.ident ∧
        outS.vis = cexAnnotatedFieldStruct.vis ∧
        outS.attrs = cexAnnotatedFieldStruct.attrs ∧
        outS.fields.map Field.ident =
          cexAnnotatedFieldStruct.fields.map Field.ident ∧
        outS.fields.map Field.ty =
          cexAnnotatedFieldStruct.fields.map Field.ty ∧
        outS.fields.map Field.attrs =
          cexAnnotatedFieldStruct.fields.map (fun f => f.attrs.filter
            (fun attr => attr.path.getIdent ≠ some "graphql_object")) :=
  output_struct_copy_modulo_stripped_field_attrs cexAnnotatedFieldStruct {} rfl

/-- C6: setting `skip_derive_simple_object` only suppresses the
`SimpleObject` derive: the output struct is still emitted, without that
derive but otherwise as usual, and the generated input struct and
conversion implementation are unchanged relative to the same options
without the flag. -/
theorem skip_derive_only_suppresses_simple_object (s : ItemStruct)
    (d n : Option String) :
    generate_output_struct s ⟨d, n, true⟩ =
        Item.structItem []
          { s with fields := s.fields.map (fun f =>
              { f with attrs :=
                  strip_annotations_with_path "graphql_object" f.attrs }) } ∧
      generate_input_struct s ⟨d, n, true⟩ =
        generate_input_struct s ⟨d, n, false⟩ :=
  ⟨rfl, rfl⟩

/-- C7 counterexample: `input_type_doc` is supplied but the reference
struct has no doc attribute; the generated input struct then carries no
doc attribute at all, so its documentation string is not the supplied
string. -/
theorem input_doc_override_ignored_without_doc_cex :
    inputStructDocHasStr
        (generate_input_struct cexNoDocStruct
          { input_type_doc := some "Custom input doc" })
        "Custom input doc" = false ∧
      generate_input_struct cexNoDocStruct
          { input_type_doc := some "Custom input doc" } =
        GenResult.items
          [Item.structItem ["::async_graphql::InputObject"]
            { attrs := [], vis := "pub", ident := "FooInput",
              fields := [⟨some "a", [], .other "String"⟩] },
           Item.intoImpl "Foo" "FooInput" [⟨"a", "a"⟩]] := by
  decide

/-- C7 (amended): when `input_type_doc` is given, the generated input
struct's attributes are the reference struct's with the first doc
attribute overwritten to the supplied string; in particular they are
unchanged when the reference struct has no doc attribute, and when it has
one, exactly the first doc attribute's value becomes the supplied string. -/
theorem input_doc_override_replaces_first_doc_attr (s : ItemStruct)
    (options : GraphqlObjectMetaArgs) (docStr : String)
    (derives : List String) (inS : ItemStruct) (rest : List Item)
    (hdoc : options.input_type_doc = some docStr)
    (hgen : generate_input_struct s options =
      .items (Item.structItem derives inS :: rest)) :
    inS.attrs = replaceFirstDoc docStr s.attrs ∧
      ((∀ a ∈ s.attrs, a.path.getIdent ≠ some "doc") → inS.attrs = s.attrs) ∧
      ∀ pre d post, s.attrs = pre ++ d :: post →
        (∀ a ∈ pre, a.path.getIdent ≠ some "doc") →
        d.path.getIdent = some "doc" →
        inS.attrs = pre ++ { d with tokens := AttrTokens.eqStr docStr } :: post := by
  obtain ⟨nf, asg, htf, hfa, hl⟩ := generate_input_struct_items_spec s options _ hgen
  have hattrs : inS.attrs = inputStructAttrs options s := by
    simp at hl
    rw [hl.1.2]
  simp only [inputStructAttrs, hdoc] at hattrs
  refine ⟨hattrs, fun hnd => ?_, fun pre d post hsplit hpre hd => ?_⟩
  · rw [hattrs, replaceFirstDoc_of_no_doc docStr s.attrs hnd]
  · rw [hattrs, hsplit, replaceFirstDoc_append docStr d post hd pre hpre]

/-- Witness for `input_doc_override_replaces_first_doc_attr` at the doc
example, whose single doc attribute gets overwritten. -/
theorem input_doc_override_replaces_first_doc_attr_witness :
    ([⟨⟨["doc"]⟩, AttrTokens.eqStr "Custom"⟩] : List Attribute) =
        replaceFirstDoc "Custom" exUserStruct.attrs ∧
      ((∀ a ∈ exUserStruct.attrs, a.path.getIdent ≠ some "doc") →
        ([⟨⟨["doc"]⟩, AttrTokens.eqStr "Custom"⟩] : List Attribute) =
          exUserStruct.attrs) ∧
      ∀ pre d post, exUserStruct.attrs = pre ++ d :: post →
        (∀ a ∈ pre, a.path.getIdent ≠ some "doc") →
        d.path.getIdent = some "doc" →
        ([⟨⟨["doc"]⟩, AttrTokens.eqStr "Custom"⟩] : List Attribute) =
          pre ++ { d with tokens := AttrTokens.eqStr "Custom" } :: post :=
  input_doc_override_replaces_first_doc_attr exUserStruct
    { input_type_doc := some "Custom" } "Custom"
    ["::async_graphql::InputObject"]
    { attrs := [⟨⟨["doc"]⟩, AttrTokens.eqStr "Custom"⟩],
      vis := "pub", ident := "UserDataInput",
      fields :=
        [⟨some "username", [], .other "String"⟩,
         ⟨some "favorites", [], .path ⟨["InputFavorites"]⟩⟩] }
    [Item.intoImpl "UserData" "UserDataInput"
      [⟨"username", "username"⟩, ⟨"favorites", "favorites"⟩]]
    rfl (by decide)

/-- C9: the expansion is a deterministic function of exactly two inputs,
the macro argument tokens and the annotated struct: two runs of
`graphql_object` on identical inputs produce identical token streams. -/
theorem expansion_deterministic (args1 args2 : List NestedMeta)
    (s1 s2 : ItemStruct) (h1 : args1 = args2) (h2 : s1 = s2) :
    graphql_object args1 s1 = graphql_object args2 s2 := by
  subst h1
  subst h2
  rfl

/-- Witness for `expansion_deterministic` at the doc example. -/
theorem expansion_deterministic_witness :
    graphql_object [] exUserStruct = graphql_object [] exUserStruct :=
  expansion_deterministic [] [] exUserStruct exUserStruct rfl rfl

/-- C10 counterexample: a struct with an unnamed (tuple) field whose
attribute carries a malformed option makes the generator return darling
error tokens — it completes without the tuple-struct panic even though a
field is unnamed. -/
theorem tuple_struct_error_before_panic_cex :
    cexTupleBadOptStruct.fields.map Field.ident = [none] ∧
      generate_input_struct cexTupleBadOptStruct {} =
        GenResult.errors [DarlingError.unknownField "bogus"] := by
  decide

/-- C10 (amended): once every per-field option has parsed successfully, a
struct with an unnamed (tuple) field makes `generate_input_struct` panic
with the message `Can't work with tuple structs`; the generated
declarations are emitted only when every field of the reference struct is
named. -/
theorem tuple_struct_conversion_panics (s : ItemStruct)
    (options : GraphqlObjectMetaArgs) :
    (∀ new_fields, transformInputFields s.fields = .ok new_fields →
        (∃ f ∈ s.fields, f.ident = none) →
        generate_input_struct s options =
          GenResult.panicked "Can't work with tuple structs") ∧
      ∀ l, generate_input_struct s options = GenResult.items l →
        ∀ f ∈ s.fields, f.ident ≠ none := by
  constructor
  · intro nf htf hun
    have herr := fieldAssignments_error_of_unnamed s.fields hun
    simp [generate_input_struct, htf, herr]
  · intro l hgen f hf
    obtain ⟨nf, asg, htf, hfa, _⟩ := generate_input_struct_items_spec s options l hgen
    exact fieldAssignments_ok_all_named s.fields asg hfa f hf

/-- Witness for `tuple_struct_conversion_panics` at a plain tuple struct
without field options: the generator panics. -/
theorem tuple_struct_conversion_panics_witness :
    generate_input_struct cexTupleStruct {} =
      GenResult.panicked "Can't work with tuple structs" :=
  (tuple_struct_conversion_panics cexTupleStruct {}).1
    [⟨none, [], .other "String"⟩] (by decide) (by decide)

/-- One darling step on the macro arguments either leaves the error list
alone or appends one error anchored at the processed token's name. -/
theorem applyMetaArg_errs_or (st : MetaArgsState) (m : NestedMeta) :
    (applyMetaArg st m).errs = st.errs ∨
      ∃ err : DarlingError, (applyMetaArg st m).errs = st.errs ++ [err] ∧
        err.loc = m.name := by
  simp only [applyMetaArg]
  split
  · exact Or.inr ⟨_, rfl, rfl⟩
  · split
    · exact Or.inr ⟨_, rfl, rfl⟩
    · split <;> (try split) <;> (try split) <;>
        first
        | exact Or.inl rfl
        | exact Or.inr ⟨_, rfl, rfl⟩

/-- Every error accumulated over the macro arguments is anchored at one of
the argument names. -/
theorem foldl_applyMetaArg_errs :
    ∀ (metas : List NestedMeta) (st : MetaArgsState),
      ∀ e ∈ (metas.foldl applyMetaArg st).errs,
        e ∈ st.errs ∨ e.loc ∈ metas.map NestedMeta.name
  | [], st, e, he => Or.inl (by simpa using he)
  | m :: rest, st, e, he => by
    rcases foldl_applyMetaArg_errs rest (applyMetaArg st m) e
        (by simpa using he) with h | h
    · rcases applyMetaArg_errs_or st m with h2 | ⟨err, h2, hloc⟩
      · rw [h2] at h
        exact Or.inl h
      · rw [h2] at h
        rcases List.mem_append.mp h with h3 | h3
        · exact Or.inl h3
        · right
          simp only [List.mem_singleton] at h3
          subst h3
          simp only [List.map_cons, List.mem_cons]
          exact Or.inl hloc
    · right
      simp only [List.map_cons, List.mem_cons]
      exact Or.inr h

/-- A darling failure on the macro arguments yields a nonempty error list
whose errors are all anchored at argument names of the source. -/
theorem from_list_error_spec (args : List NestedMeta)
    (errs : List DarlingError)
    (h : GraphqlObjectMetaArgs.from_list args = .error errs) :
    errs ≠ [] ∧ ∀ e ∈ errs, e.loc ∈ args.map NestedMeta.name := by
  simp only [GraphqlObjectMetaArgs.from_list] at h
  split at h
  · cases h
  · next hne =>
    injection h with h
    subst h
    refine ⟨hne, fun e he => ?_⟩
    rcases foldl_applyMetaArg_errs args ⟨{}, [], []⟩ e he with h0 | h0
    · simp at h0
    · exact h0

/-- One darling step on a field option either leaves the error list alone
or appends one error anchored at the processed token's name. -/
theorem applyFieldMeta_errs_or (st : FieldArgsState) (m : NestedMeta) :
    (applyFieldMeta st m).errs = st.errs ∨
      ∃ err : DarlingError, (applyFieldMeta st m).errs = st.errs ++ [err] ∧
        err.loc = m.name := by
  simp only [applyFieldMeta]
  split
  · exact Or.inr ⟨_, rfl, rfl⟩
  · split
    · exact Or.inr ⟨_, rfl, rfl⟩
    · split <;> (try split) <;>
        first
        | exact Or.inl rfl
        | exact Or.inr ⟨_, rfl, rfl⟩

/-- Every error accumulated over one attribute's meta list is anchored at
one of its option names. -/
theorem foldl_applyFieldMeta_errs :
    ∀ (metas : List NestedMeta) (st : FieldArgsState),
      ∀ e ∈ (metas.foldl applyFieldMeta st).errs,
        e ∈ st.errs ∨ e.loc ∈ metas.map NestedMeta.name
  | [], st, e, he => Or.inl (by simpa using he)
  | m :: rest, st, e, he => by
    rcases foldl_applyFieldMeta_errs rest (applyFieldMeta st m) e
        (by simpa using he) with h | h
    · rcases applyFieldMeta_errs_or st m with h2 | ⟨err, h2, hloc⟩
      · rw [h2] at h
        exact Or.inl h
      · rw [h2] at h
        rcases List.mem_append.mp h with h3 | h3
        · exact Or.inl h3
        · right
          simp only [List.mem_singleton] at h3
          subst h3
          simp only [List.map_cons, List.mem_cons]
          exact Or.inl hloc
    · right
      simp only [List.map_cons, List.mem_cons]
      exact Or.inr h

/-- Every error one attribute contributes is anchored at one of the
option names that attribute carries. -/
theorem applyFieldAttr_errs (st : FieldArgsState) (attr : Attribute) :
    ∀ e ∈ (applyFieldAttr st attr).errs,
      e ∈ st.errs ∨ e.loc ∈ attrOptionNames attr := by
  intro e he
  unfold applyFieldAttr at he
  by_cases hp : attr.path.getIdent = some "graphql_object"
  · rw [if_pos hp] at he
    cases ht : attr.tokens with
    | eqStr s2 =>
      simp only [ht] at he
      rcases List.mem_append.mp he with h | h
      · exact Or.inl h
      · right
        simp only [List.mem_singleton] at h
        subst h
        simp [attrOptionNames, hp, ht, DarlingError.loc]
    | metaList ms =>
      simp only [ht] at he
      rcases foldl_applyFieldMeta_errs ms st e he with h | h
      · exact Or.inl h
      · right
        simpa [attrOptionNames, hp, ht] using h
    | empty =>
      simp only [ht] at he
      exact Or.inl he
  · rw [if_neg hp] at he
    exact Or.inl he

/-- Every error accumulated over a field's attributes is anchored at one
of that field's option names. -/
theorem foldl_applyFieldAttr_errs :
    ∀ (attrs : List Attribute) (st : FieldArgsState),
      ∀ e ∈ (attrs.foldl applyFieldAttr st).errs,
        e ∈ st.errs ∨ e.loc ∈ (attrs.map attrOptionNames).flatten
  | [], st, e, he => Or.inl (by simpa using he)
  | attr :: rest, st, e, he => by
    rcases foldl_applyFieldAttr_errs rest (applyFieldAttr st attr) e
        (by simpa using he) with h | h
    · rcases applyFieldAttr_errs st attr e h with h2 | h2
      · exact Or.inl h2
      · right
        exact List.mem_flatten.mpr ⟨attrOptionNames attr,
          List.mem_map.mpr ⟨attr, List.mem_cons_self attr rest, rfl⟩, h2⟩
    · right
      rcases List.mem_flatten.mp h with ⟨l, hl, hel⟩
      rcases List.mem_map.mp hl with ⟨b, hb, hbl⟩
      exact List.mem_flatten.mpr ⟨l,
        List.mem_map.mpr ⟨b, List.mem_cons_of_mem attr hb, hbl⟩, hel⟩

/-- A darling failure on one field yields a nonempty error list whose
errors are all anchored at that field's option names. -/
theorem from_field_error_spec (f : Field) (errs : List DarlingError)
    (h : GraphqlObjectFieldArgs.from_field f = .error errs) :
    errs ≠ [] ∧ ∀ e ∈ errs, e.loc ∈ fieldOptionNames f := by
  simp only [GraphqlObjectFieldArgs.from_field] at h
  split at h
  · cases h
  · next hne =>
    injection h with h
    subst h
    refine ⟨hne, fun e he => ?_⟩
    rcases foldl_applyFieldAttr_errs f.attrs ⟨{}, [], []⟩ e he with h0 | h0
    · simp at h0
    · simpa [fieldOptionNames] using h0

/-- A failure of the input-field loop comes from one field of the source,
with a nonempty error list anchored at that field's option names. -/
theorem transformInputFields_error_spec :
    ∀ (fields : List Field) (errs : List DarlingError),
      transformInputFields fields = .error errs →
      errs ≠ [] ∧ ∃ f ∈ fields, ∀ e ∈ errs, e.loc ∈ fieldOptionNames f
  | [], errs, h => by simp [transformInputFields] at h
  | f :: rest, errs, h => by
    cases hf : GraphqlObjectFieldArgs.from_field f with
    | error errs0 =>
      simp [transformInputFields, hf] at h
      subst h
      obtain ⟨hne, hloc⟩ := from_field_error_spec f errs0 hf
      exact ⟨hne, f, List.mem_cons_self f rest, hloc⟩
    | ok fargs =>
      cases ht : transformInputFields rest with
      | ok nf => simp [transformInputFields, hf, ht] at h
      | error errs0 =>
        simp [transformInputFields, hf, ht] at h
        subst h
        obtain ⟨hne, g, hg, hloc⟩ := transformInputFields_error_spec rest errs0 ht
        exact ⟨hne, g, List.mem_cons_of_mem f hg, hloc⟩

/-- C8: when the macro arguments, or some field's options, do not conform
to the option schema, the expansion is darling's `compile_error!` tokens —
nonempty and anchored at offending source option names — in place of the
declarations that could not be produced (the output struct, which could,
is still emitted in the field-error case), and the macro does not panic. -/
theorem malformed_options_yield_error_tokens (args : List NestedMeta)
    (s : ItemStruct)
    (h : (∃ e0, GraphqlObjectMetaArgs.from_list args = .error e0) ∨
      (∃ options e0, GraphqlObjectMetaArgs.from_list args = .ok options ∧
        transformInputFields s.fields = .error e0)) :
    ∃ errs, errs ≠ [] ∧ (∀ e ∈ errs, e.loc ∈ sourceOptionNames args s) ∧
      (graphql_object args s =
          Expansion.tokens [Item.compileErrors errs] ∨
        ∃ options, GraphqlObjectMetaArgs.from_list args = .ok options ∧
          graphql_object args s =
            Expansion.tokens [generate_output_struct s options,
              Item.compileErrors errs]) := by
  rcases h with ⟨e0, herr⟩ | ⟨options, e0, hok, herr⟩
  · obtain ⟨hne, hloc⟩ := from_list_error_spec args e0 herr
    refine ⟨e0, hne, fun e he => ?_, Or.inl ?_⟩
    · simp only [sourceOptionNames, List.mem_append]
      exact Or.inl (hloc e he)
    · simp [graphql_object, herr]
  · obtain ⟨hne, f, hf, hloc⟩ := transformInputFields_error_spec s.fields e0 herr
    refine ⟨e0, hne, fun e he => ?_, Or.inr ⟨options, hok, ?_⟩⟩
    · simp only [sourceOptionNames, List.mem_append]
      refine Or.inr (List.mem_flatten.mpr ⟨fieldOptionNames f,
        List.mem_map.mpr ⟨f, hf, rfl⟩, hloc e he⟩)
    · simp [graphql_object, hok, generate_input_struct, herr]

/-- Witness for `malformed_options_yield_error_tokens` at an unknown macro
option on a concrete struct. -/
theorem malformed_options_yield_error_tokens_witness :
    ∃ errs, errs ≠ [] ∧
      (∀ e ∈ errs, e.loc ∈
        sourceOptionNames [NestedMeta.nameValueStr "bogus" "x"] cexNoDocStruct) ∧
      (graphql_object [NestedMeta.nameValueStr "bogus" "x"] cexNoDocStruct =
          Expansion.tokens [Item.compileErrors errs] ∨
        ∃ options, GraphqlObjectMetaArgs.from_list
            [NestedMeta.nameValueStr "bogus" "x"] = .ok options ∧
          graphql_object [NestedMeta.nameValueStr "bogus" "x"] cexNoDocStruct =
            Expansion.tokens
              [generate_output_struct cexNoDocStruct options,
               Item.compileErrors errs]) :=
  malformed_options_yield_error_tokens
    [NestedMeta.nameValueStr "bogus" "x"] cexNoDocStruct
    (Or.inl ⟨[DarlingError.unknownField "bogus"], by decide⟩)

end AsyncGraphqlExtras
